import Mathlib

/-!
Shallow embedding of the data-cleaning and summary logic of
`opendataprojects/analyse.ipynb`.

A row read from the CSV is a Python dict mapping column names to values.
Values start out as strings; the cleaner may replace a value by an integer.
Python dicts preserve insertion order and have unique keys; we model a row
as an association list `List (String × Value)` whose lookup returns the
first binding of a key, which agrees with dicts on unique-key lists.

Fallible Python operations (a `KeyError` on dict indexing, a `TypeError`
on arithmetic over a string, a `ZeroDivisionError`) are modelled with
`Except String`.
-/

set_option autoImplicit false

namespace Analyse

/-- A field value of a row: Python values in this notebook are either the
original CSV string or an integer produced by coercion. -/
inductive Value where
  | str (s : String)
  | int (n : Int)
  deriving DecidableEq, Repr

/-- A row (Python dict): ordered association list from column name to value. -/
abbrev Record := List (String × Value)

instance {ε α : Type} [DecidableEq ε] [DecidableEq α] :
    DecidableEq (Except ε α) := fun x y =>
  match x, y with
  | Except.error a, Except.error b =>
    match decEq a b with
    | isTrue h => isTrue (h ▸ rfl)
    | isFalse h => isFalse (by intro hh; cases hh; exact h rfl)
  | Except.ok a, Except.ok b =>
    match decEq a b with
    | isTrue h => isTrue (h ▸ rfl)
    | isFalse h => isFalse (by intro hh; cases hh; exact h rfl)
  | Except.error _, Except.ok _ => isFalse (fun hh => Except.noConfusion hh)
  | Except.ok _, Except.error _ => isFalse (fun hh => Except.noConfusion hh)

/-- Dict lookup `r[k]` as an option: first binding of `k` wins. -/
def lookup : Record → String → Option Value
  | [], _ => none
  | (k, v) :: rest, key => if k = key then some v else lookup rest key

/-- The key `k` is present in the row (so `r[k]` would not raise `KeyError`). -/
def hasKey (r : Record) (k : String) : Bool :=
  (lookup r k).isSome

/-- Interpretation of `int(value)` on a string argument, Python semantics:
surrounding whitespace is ignored, then an optional single sign is followed
by a non-empty run of decimal digits. (Unicode digit classes and underscore
digit grouping, which CPython also accepts, never occur in this dataset and
are not modelled.) Returns `none` where Python raises `ValueError`. -/
def parseIntPy (s : String) : Option Int :=
  let l := ((s.data.dropWhile Char.isWhitespace).reverse.dropWhile Char.isWhitespace).reverse
  match l with
  | [] => none
  | c :: rest =>
    let sign : Int := if c = '-' then -1 else 1
    let digits := if c = '-' || c = '+' then rest else c :: rest
    if digits ≠ [] ∧ digits.all Char.isDigit then
      some (sign * (digits.foldl (fun acc d => acc * 10 + (d.toNat - 48)) 0 : Nat))
    else
      none

/-- Interpretation of `int(value)` on any value the notebook can hold:
on an integer `int` is the identity, on a string it parses per
`parseIntPy`. -/
def pyInt : Value → Option Int
  | Value.int n => some n
  | Value.str s => parseIntPy s

/-- The location column name used by `clean`. -/
def locKey : String := "Location/Agglomeration"

/-- The sentinel location marking the synthetic rollup row that `clean`
drops. -/
def SENTINEL : Value := Value.str "Major sources (outside agglomerations)"

/-- Per-field action of the loop body in `clean`:

    if value == 'n/a':
        row[key] = 0
    try:
        row[key] = int(value)
    except ValueError as e:
        pass

Note the `try` re-reads the original `value`, not the `0` written by the
`n/a` branch; since `int('n/a')` raises, the `0` survives exactly when the
original value was the marker. -/
def cleanValue (v : Value) : Value :=
  match pyInt v with
  | some n => Value.int n
  | none => if v = Value.str "n/a" then Value.int 0 else v

/-- The field loop of `clean`: every binding's value is cleaned; keys and
their order are untouched (Python dict iteration visits each key once, and
assigning to an existing key neither reorders nor resizes the dict). -/
def cleanFields (r : Record) : Record :=
  r.map (fun kv => (kv.1, cleanValue kv.2))

/-- Return-value view of `clean(row)`: `row['Location/Agglomeration']`
raises `KeyError` when the key is missing; a row whose location equals the
sentinel yields `None` (drop signal); otherwise the cleaned row is
returned. -/
def clean (r : Record) : Except String (Option Record) :=
  match lookup r locKey with
  | none => Except.error "KeyError"
  | some v =>
    if v = SENTINEL then Except.ok none
    else Except.ok (some (cleanFields r))

/-- State-passing view of `clean(row)`: Python updates the caller's dict in
place (`row[key] = ...`), so the call both returns a value and leaves the
argument dict in a final state. The first component is the returned value
(`none` = Python `None`), the second the final state of the caller's
mapping: unchanged when the row is dropped (the `row = None` branch only
rebinds the local name), the cleaned mapping otherwise. -/
def cleanInPlace (r : Record) : Except String (Option Record × Record) :=
  match lookup r locKey with
  | none => Except.error "KeyError"
  | some v =>
    if v = SENTINEL then Except.ok (none, r)
    else Except.ok (some (cleanFields r), cleanFields r)

/-- The dataset-building loop:

    data = []
    for row in reader:
        row = clean(row)
        if row:
            data.append(row)

`if row:` is Python truthiness: it rejects `None` and also an empty dict. -/
def buildDataset : List Record → Except String (List Record)
  | [] => Except.ok []
  | r :: rs =>
    match clean r with
    | Except.error e => Except.error e
    | Except.ok none => buildDataset rs
    | Except.ok (some c) =>
      match buildDataset rs with
      | Except.error e => Except.error e
      | Except.ok ds => Except.ok (if c.isEmpty then ds else c :: ds)

/-- Dict indexing `r[k]` in an integer context (`sum`, division,
comparison against another integer): a missing key raises `KeyError`;
a string value would make the surrounding arithmetic raise `TypeError`.
All uses in the notebook hit integer values of the cleaned dataset. -/
def pyGetInt (r : Record) (k : String) : Except String Int :=
  match lookup r k with
  | none => Except.error "KeyError"
  | some (Value.int n) => Except.ok n
  | some (Value.str _) => Except.error "TypeError"

/-- The population column used as the key of `max`/`min`. -/
def popKey : String := "AgglomerationPopulation"

/-- Population of a record as a plain integer (defaulting to 0), used to
state properties; theorems that use it assume `hasIntPop`. -/
def popN (r : Record) : Int :=
  match lookup r popKey with
  | some (Value.int n) => n
  | _ => 0

/-- The record has an integer population field, so `itemgetter` succeeds
and comparisons are integer comparisons. -/
def hasIntPop (r : Record) : Bool :=
  match lookup r popKey with
  | some (Value.int _) => true
  | _ => false

/-- Scanning loop of CPython's `max(data, key=itemgetter(popKey))` after
the first element: `best`/`bk` are the current best record and its key; a
later record replaces the best only if its key is strictly greater, so the
first record attaining the maximum is kept. -/
def maxScan : Record → Int → List Record → Except String Record
  | best, _, [] => Except.ok best
  | best, bk, r :: rs =>
    match pyGetInt r popKey with
    | Except.error e => Except.error e
    | Except.ok k => if bk < k then maxScan r k rs else maxScan best bk rs

/-- Scanning loop of `min(data, key=itemgetter(popKey))`: a later record
replaces the best only if its key is strictly smaller. -/
def minScan : Record → Int → List Record → Except String Record
  | best, _, [] => Except.ok best
  | best, bk, r :: rs =>
    match pyGetInt r popKey with
    | Except.error e => Except.error e
    | Except.ok k => if k < bk then minScan r k rs else minScan best bk rs

/-- `most_populated = max(data, key=operator.itemgetter('AgglomerationPopulation'))`.
An empty dataset raises `ValueError`. -/
def most_populated : List Record → Except String Record
  | [] => Except.error "ValueError"
  | r :: rs =>
    match pyGetInt r popKey with
    | Except.error e => Except.error e
    | Except.ok k => maxScan r k rs

/-- `least_populated = min(data, key=operator.itemgetter('AgglomerationPopulation'))`. -/
def least_populated : List Record → Except String Record
  | [] => Except.error "ValueError"
  | r :: rs =>
    match pyGetInt r popKey with
    | Except.error e => Except.error e
    | Except.ok k => minScan r k rs

/-- `sum([r['Industry_Pop_Lden>=75dB'], r['Railways_Pop_Lden>=75dB'],
r['Road_Pop_Lden>=75dB']])`, shared shape of both
`*_high_exposure_count` computations. -/
def highExposureCount (r : Record) : Except String Int :=
  match pyGetInt r "Industry_Pop_Lden>=75dB" with
  | Except.error e => Except.error e
  | Except.ok a =>
    match pyGetInt r "Railways_Pop_Lden>=75dB" with
    | Except.error e => Except.error e
    | Except.ok b =>
      match pyGetInt r "Road_Pop_Lden>=75dB" with
      | Except.error e => Except.error e
      | Except.ok c => Except.ok ([a, b, c].foldl (· + ·) 0)

/-- Rendering of a count of hundredths as a fixed two-decimal string with
a trailing percent sign: `renderCenti n` prints the value `n / 100` the
way `'{0:.2f}%'` lays it out once the rounding has been done. -/
def renderCenti (n : ℤ) : String :=
  let sign := if n < 0 then "-" else ""
  let m := n.natAbs
  sign ++ toString (m / 100) ++ "." ++
    (if m % 100 < 10 then "0" else "") ++ toString (m % 100) ++ "%"

/-- Round-half-even of the fraction `num / den` (for positive `den`), the
rounding used by Python's `.2f` format of a value it can represent
exactly. With `f = num.fdiv den = ⌊num / den⌋` the fractional part is
`(num - f * den) / den`, compared against one half by comparing twice the
remainder against the denominator. Integer arithmetic throughout so that
concrete instances evaluate inside the kernel. -/
def roundHalfEvenFrac (num den : ℤ) : ℤ :=
  if 2 * (num - num.fdiv den * den) < den then num.fdiv den
  else if den < 2 * (num - num.fdiv den * den) then num.fdiv den + 1
  else if num.fdiv den % 2 = 0 then num.fdiv den else num.fdiv den + 1

/-- Round-half-even of a rational, stated with the floor function: the
specification-level counterpart of `roundHalfEvenFrac`. -/
def roundHalfEvenRat (q : ℚ) : ℤ :=
  if q - (⌊q⌋ : ℚ) < 1 / 2 then ⌊q⌋
  else if 1 / 2 < q - (⌊q⌋ : ℚ) then ⌊q⌋ + 1
  else if ⌊q⌋ % 2 = 0 then ⌊q⌋ else ⌊q⌋ + 1

/-- The string `'{0:.2f}%'.format(v)` for the exact value `v = num / den`
with `den > 0`: `v` is rounded to hundredths half-to-even and rendered.
The source computes `v` in IEEE-754 double precision; this model formats
the exact rational, which agrees whenever the double holds the value
exactly, as in every instance proved below. -/
def formatPercentFrac (num den : ℤ) : String :=
  renderCenti (roundHalfEvenFrac (num * 100) den)

/-- Specification-level `'{0:.2f}%'.format`: the same string built from
the rational value itself. -/
def formatPercentRat (q : ℚ) : String :=
  renderCenti (roundHalfEvenRat (q * 100))

/-- `'{0:.2f}%'.format((high_exposure_count / r['AgglomerationPopulation']) * 100)`,
shared shape of both `*_high_exposure_percent` computations. Python's `/`
on integers is true division, so the formatted value is the exact
fraction `(c * 100) / p`; dividing by integer 0 raises
`ZeroDivisionError`, unguarded in the source. -/
def highExposurePercent (r : Record) : Except String String :=
  match highExposureCount r with
  | Except.error e => Except.error e
  | Except.ok c =>
    match pyGetInt r popKey with
    | Except.error e => Except.error e
    | Except.ok p =>
      if p = 0 then Except.error "ZeroDivisionError"
      else Except.ok (formatPercentFrac (c * 100) p)

/-! Helper lemmas about the cleaner. -/

theorem lookup_cleanFields (r : Record) (k : String) :
    lookup (cleanFields r) k = (lookup r k).map cleanValue := by
  induction r with
  | nil => rfl
  | cons kv rest ih =>
    obtain ⟨k1, v1⟩ := kv
    by_cases h : k1 = k
    · simp [cleanFields, lookup, h]
    · simp only [cleanFields, List.map_cons, lookup, h, if_false] at *
      exact ih

theorem cleanValue_str {v : Value} {s : String}
    (h : cleanValue v = Value.str s) : v = Value.str s := by
  unfold cleanValue at h
  cases hp : pyInt v with
  | some n => rw [hp] at h; exact absurd h (by simp)
  | none =>
    rw [hp] at h
    by_cases hna : v = Value.str "n/a"
    · rw [if_pos hna] at h; exact absurd h (by simp)
    · rwa [if_neg hna] at h

theorem clean_noloc (r : Record) (hl : lookup r locKey = none) :
    clean r = Except.error "KeyError" := by
  unfold clean; rw [hl]

theorem clean_some (r : Record) (v : Value) (hl : lookup r locKey = some v) :
    clean r =
      if v = SENTINEL then Except.ok none
      else Except.ok (some (cleanFields r)) := by
  unfold clean; rw [hl]

theorem clean_ok_some {r c : Record} (h : clean r = Except.ok (some c)) :
    ∃ v, lookup r locKey = some v ∧ v ≠ SENTINEL ∧ c = cleanFields r := by
  cases hl : lookup r locKey with
  | none => rw [clean_noloc r hl] at h; exact absurd h (by simp)
  | some v =>
    rw [clean_some r v hl] at h
    by_cases hs : v = SENTINEL
    · rw [if_pos hs] at h; exact absurd h (by simp)
    · rw [if_neg hs] at h
      exact ⟨v, rfl, hs, (Option.some.inj (Except.ok.inj h)).symm⟩

theorem buildDataset_mem_loc {rows ds : List Record}
    (h : buildDataset rows = Except.ok ds) :
    ∀ x ∈ ds, lookup x locKey ≠ some SENTINEL := by
  induction rows generalizing ds with
  | nil =>
    have : ds = [] := by
      unfold buildDataset at h
      exact (Except.ok.inj h).symm
    subst this; intro x hx; exact absurd hx (List.not_mem_nil x)
  | cons r rs ih =>
    unfold buildDataset at h
    cases hc : clean r with
    | error e => rw [hc] at h; exact absurd h (by simp)
    | ok o =>
      rw [hc] at h
      cases o with
      | none => exact ih h
      | some c =>
        cases hb : buildDataset rs with
        | error e => rw [hb] at h; exact absurd h (by simp)
        | ok ds' =>
          rw [hb] at h
          have hds : (if c.isEmpty then ds' else c :: ds') = ds := Except.ok.inj h
          obtain ⟨v, hv, hvs, hcf⟩ := clean_ok_some hc
          intro x hx
          by_cases he : c.isEmpty
          · rw [if_pos he] at hds; subst hds; exact ih hb x hx
          · rw [if_neg he] at hds; subst hds
            rcases List.mem_cons.mp hx with hxc | hxd
            · subst hxc
              rw [hcf, lookup_cleanFields, hv]
              intro habs
              have : cleanValue v = SENTINEL := Option.some.inj habs
              exact hvs (cleanValue_str this)
            · exact ih hb x hxd

/-! Claim theorems about the cleaner. -/

/-- C1: a raw record whose location field equals the sentinel string
'Major sources (outside agglomerations)' makes `clean` return the drop
signal, and no built dataset contains that record. -/
theorem c1_sentinel_dropped (r : Record)
    (h : lookup r locKey = some SENTINEL) :
    clean r = Except.ok none ∧
      ∀ rows ds, buildDataset rows = Except.ok ds → r ∉ ds := by
  constructor
  · rw [clean_some r SENTINEL h, if_pos rfl]
  · intro rows ds hb hmem
    exact buildDataset_mem_loc hb r hmem h

/-- Witness for C1 at the sentinel row of the end-to-end example in the
spec: `clean` signals a drop, and building from that single row yields a
dataset not containing it. -/
theorem c1_sentinel_dropped_witness :
    clean [(locKey, SENTINEL), (popKey, Value.str "999")] = Except.ok none ∧
      ([(locKey, SENTINEL), (popKey, Value.str "999")] : Record) ∉
        ([] : List Record) :=
  ⟨(c1_sentinel_dropped _ (by decide)).1,
   (c1_sentinel_dropped _ (by decide)).2
     [[(locKey, SENTINEL), (popKey, Value.str "999")]] [] rfl⟩

/-- C2: in a non-dropped record, any field whose raw value is the marker
string 'n/a' is integer 0 in the cleaned record. -/
theorem c2_na_becomes_zero (r : Record) (v : Value) (k : String)
    (hloc : lookup r locKey = some v) (hns : v ≠ SENTINEL)
    (hk : lookup r k = some (Value.str "n/a")) :
    ∃ c, clean r = Except.ok (some c) ∧ lookup c k = some (Value.int 0) := by
  refine ⟨cleanFields r, ?_, ?_⟩
  · rw [clean_some r v hloc, if_neg hns]
  · rw [lookup_cleanFields, hk]
    decide

/-- Witness for C2: a record with location "A" and one 'n/a' field. -/
theorem c2_na_becomes_zero_witness :
    ∃ c, clean [(locKey, Value.str "A"), ("x", Value.str "n/a")] =
        Except.ok (some c) ∧ lookup c "x" = some (Value.int 0) :=
  c2_na_becomes_zero [(locKey, Value.str "A"), ("x", Value.str "n/a")]
    (Value.str "A") "x" (by decide) (by decide) (by decide)

/-- C3: in a non-dropped record, a field whose raw string parses as a
base-10 integer is that integer in the cleaned record, and a
non-parsing, non-marker string is left unchanged; the statement holds for
every key, the location field included. -/
theorem c3_numeric_coercion (r : Record) (v : Value) (k s : String)
    (hloc : lookup r locKey = some v) (hns : v ≠ SENTINEL)
    (hk : lookup r k = some (Value.str s)) :
    ∃ c, clean r = Except.ok (some c) ∧
      (∀ n, parseIntPy s = some n → lookup c k = some (Value.int n)) ∧
      (parseIntPy s = none → s ≠ "n/a" → lookup c k = some (Value.str s)) := by
  refine ⟨cleanFields r, ?_, ?_, ?_⟩
  · rw [clean_some r v hloc, if_neg hns]
  · intro n hn
    rw [lookup_cleanFields, hk]
    simp [cleanValue, pyInt, hn]
  · intro hn hna
    rw [lookup_cleanFields, hk]
    have : cleanValue (Value.str s) = Value.str s := by
      unfold cleanValue
      rw [show pyInt (Value.str s) = none from hn]
      rw [if_neg (by simpa using hna)]
    simp [this]

/-- Witness for C3: "12" parses and is coerced, "abc" does not parse and
is kept. -/
theorem c3_numeric_coercion_witness :
    (∃ c, clean [(locKey, Value.str "A"), ("x", Value.str "12")] =
        Except.ok (some c) ∧
      (∀ n, parseIntPy "12" = some n → lookup c "x" = some (Value.int n)) ∧
      (parseIntPy "12" = none → "12" ≠ "n/a" →
        lookup c "x" = some (Value.str "12"))) ∧
    (∃ c, clean [(locKey, Value.str "A"), ("y", Value.str "abc")] =
        Except.ok (some c) ∧
      (∀ n, parseIntPy "abc" = some n → lookup c "y" = some (Value.int n)) ∧
      (parseIntPy "abc" = none → "abc" ≠ "n/a" →
        lookup c "y" = some (Value.str "abc"))) :=
  ⟨c3_numeric_coercion [(locKey, Value.str "A"), ("x", Value.str "12")]
      (Value.str "A") "x" "12" (by decide) (by decide) (by decide),
   c3_numeric_coercion [(locKey, Value.str "A"), ("y", Value.str "abc")]
      (Value.str "A") "y" "abc" (by decide) (by decide) (by decide)⟩

/-- A value is already clean: an integer, or a string that is neither the
'n/a' marker nor parseable as an integer. -/
def valueIsClean : Value → Bool
  | Value.int _ => true
  | Value.str s => s ≠ "n/a" && (parseIntPy s).isNone

theorem cleanValue_of_clean {v : Value} (h : valueIsClean v = true) :
    cleanValue v = v := by
  cases v with
  | int n => rfl
  | str s =>
    simp only [valueIsClean, Bool.and_eq_true, decide_eq_true_eq,
      Option.isNone_iff_eq_none] at h
    unfold cleanValue
    rw [show pyInt (Value.str s) = none from h.2, if_neg (by simp [h.1])]

theorem cleanFields_of_clean {r : Record}
    (h : ∀ kv ∈ r, valueIsClean kv.2 = true) : cleanFields r = r := by
  induction r with
  | nil => rfl
  | cons kv rest ih =>
    have hkv : cleanValue kv.2 = kv.2 := cleanValue_of_clean (h kv (by simp))
    simp only [cleanFields, List.map_cons, hkv]
    rw [show (kv.1, kv.2) = kv from rfl]
    have : cleanFields rest = rest := ih (fun x hx => h x (by simp [hx]))
    simp only [cleanFields] at this
    rw [this]

/-- C7: cleaning is idempotent on already-clean records: if the location
is present and not the sentinel, and every value is an integer or a
non-marker, non-parseable string, `clean` returns the record unchanged. -/
theorem c7_clean_idempotent (r : Record) (v : Value)
    (hloc : lookup r locKey = some v) (hns : v ≠ SENTINEL)
    (hvals : ∀ kv ∈ r, valueIsClean kv.2 = true) :
    clean r = Except.ok (some r) := by
  rw [clean_some r v hloc, if_neg hns, cleanFields_of_clean hvals]

/-- Witness for C7: a cleaned-looking record with an integer, a plain
string and a non-sentinel location is returned unchanged. -/
theorem c7_clean_idempotent_witness :
    clean [(locKey, Value.str "Leeds"), (popKey, Value.int 3),
           ("note", Value.str "abc")] =
      Except.ok (some [(locKey, Value.str "Leeds"), (popKey, Value.int 3),
           ("note", Value.str "abc")]) :=
  c7_clean_idempotent _ (Value.str "Leeds") (by decide) (by decide) (by decide)

/-- C9 counterexample: the claim that `clean` leaves the caller-supplied
mapping unchanged fails: cleaning a non-dropped row writes the coerced
values into the caller's dict, so its final state differs from the raw
input. -/
theorem c9_counterexample :
    ¬ (∀ (r : Record) (ret : Option Record) (fs : Record),
        cleanInPlace r = Except.ok (ret, fs) → fs = r) := by
  intro h
  have := h [(locKey, Value.str "A"), ("x", Value.str "5")]
    (some [(locKey, Value.str "A"), ("x", Value.int 5)])
    [(locKey, Value.str "A"), ("x", Value.int 5)] rfl
  exact absurd this (by decide)

/-- C9 amended: `clean` does mutate the caller-supplied mapping in place;
after a call that returns, the caller's dict is unchanged exactly when the
record was dropped (the drop branch only rebinds a local name), and
otherwise equals the returned cleaned record; no state other than the
argument mapping and the returned value is involved. -/
theorem c9_clean_effect (r : Record) (ret : Option Record) (fs : Record)
    (h : cleanInPlace r = Except.ok (ret, fs)) :
    (ret = none ∧ fs = r) ∨ ret = some fs := by
  unfold cleanInPlace at h
  cases hl : lookup r locKey with
  | none => rw [hl] at h; exact absurd h (by simp)
  | some v =>
    rw [hl] at h
    have h' :
        (if v = SENTINEL then Except.ok (none, r)
         else Except.ok (some (cleanFields r), cleanFields r)) =
          Except.ok (ret, fs) := h
    by_cases hs : v = SENTINEL
    · rw [if_pos hs] at h'
      have hp := Except.ok.inj h'
      exact Or.inl ⟨(Prod.mk.injEq _ _ _ _ ▸ hp.symm).1,
        (Prod.mk.injEq _ _ _ _ ▸ hp.symm).2⟩
    · rw [if_neg hs] at h'
      have hp := Except.ok.inj h'
      have h1 : ret = some (cleanFields r) :=
        ((Prod.mk.injEq _ _ _ _ ▸ hp.symm).1 : _)
      have h2 : fs = cleanFields r :=
        ((Prod.mk.injEq _ _ _ _ ▸ hp.symm).2 : _)
      exact Or.inr (by rw [h1, h2])

/-- Witness for C9's amended statement: the dropped sentinel row leaves
the mapping unchanged, and a cleaned row's final state is the returned
record. -/
theorem c9_clean_effect_witness :
    ((none : Option Record) = none ∧
        ([(locKey, SENTINEL)] : Record) = [(locKey, SENTINEL)]) ∨
      (none : Option Record) = some [(locKey, SENTINEL)] :=
  c9_clean_effect [(locKey, SENTINEL)] none [(locKey, SENTINEL)] rfl

/-- C10: presence of the 'Location/Agglomeration' key is a precondition
of `clean`: without it the lookup raises `KeyError` and no cleaned record
or drop signal is produced; with it, `clean` always returns. -/
theorem c10_loc_key_precondition :
    (∀ r : Record, lookup r locKey = none →
        clean r = Except.error "KeyError") ∧
    (∀ (r : Record) (v : Value), lookup r locKey = some v →
        ∃ o, clean r = Except.ok o) := by
  constructor
  · exact fun r hl => clean_noloc r hl
  · intro r v hl
    by_cases hs : v = SENTINEL
    · exact ⟨none, by rw [clean_some r v hl, if_pos hs]⟩
    · exact ⟨some (cleanFields r), by rw [clean_some r v hl, if_neg hs]⟩

/-- Witness for C10: a record without the location key errors, one with
it returns. -/
theorem c10_loc_key_precondition_witness :
    clean [("x", Value.str "5")] = Except.error "KeyError" ∧
      ∃ o, clean [(locKey, Value.str "A")] = Except.ok o :=
  ⟨c10_loc_key_precondition.1 [("x", Value.str "5")] (by decide),
   c10_loc_key_precondition.2 [(locKey, Value.str "A")] (Value.str "A")
     (by decide)⟩

/-- C6: the builder maps the cleaner over the rows in order, keeping
exactly the cleaned forms of the rows whose location is not the sentinel.
The truthiness test `if row:` also discards an empty dict, but a row with
the location key present is never empty. -/
theorem c6_builder (rows : List Record)
    (h : ∀ r ∈ rows, hasKey r locKey = true) :
    buildDataset rows =
      Except.ok
        (((rows.filter
            (fun r => !decide (lookup r locKey = some SENTINEL))).map
          cleanFields)) := by
  induction rows with
  | nil => rfl
  | cons r rs ih =>
    have hr : hasKey r locKey = true := h r (by simp)
    have hrs := ih (fun x hx => h x (by simp [hx]))
    unfold buildDataset
    rw [hasKey, Option.isSome_iff_exists] at hr
    obtain ⟨v, hv⟩ := hr
    by_cases hs : v = SENTINEL
    · rw [clean_some r v hv, if_pos hs, hrs]
      have : (lookup r locKey = some SENTINEL) := by rw [hv, hs]
      simp [List.filter_cons, this]
    · rw [clean_some r v hv, if_neg hs, hrs]
      have hne : ¬(lookup r locKey = some SENTINEL) := by
        rw [hv]; intro habs; exact hs (Option.some.inj habs)
      have hnonempty : (cleanFields r).isEmpty = false := by
        cases hrr : r with
        | nil => rw [hrr] at hv; exact absurd hv (by simp [lookup])
        | cons kv rest => simp [cleanFields]
      simp [List.filter_cons, hne, hnonempty]

/-- Witness for C6 on the end-to-end rows of the spec: the sentinel row
is dropped and the other row appears cleaned, in order. -/
theorem c6_builder_witness :
    buildDataset
        [[(locKey, Value.str "A"), (popKey, Value.str "100")],
         [(locKey, SENTINEL), (popKey, Value.str "999")]] =
      Except.ok
        ((([[(locKey, Value.str "A"), (popKey, Value.str "100")],
            [(locKey, SENTINEL), (popKey, Value.str "999")]].filter
             (fun r => !decide (lookup r locKey = some SENTINEL))).map
          cleanFields)) :=
  c6_builder _ (by decide)

/-! Helper lemmas for the extremal scans. -/

theorem pyGetInt_pop {r : Record} (h : hasIntPop r = true) :
    pyGetInt r popKey = Except.ok (popN r) := by
  cases hl : lookup r popKey with
  | none =>
    rw [show hasIntPop r = false by unfold hasIntPop; rw [hl]] at h
    exact absurd h (by simp)
  | some v =>
    cases v with
    | str s =>
      rw [show hasIntPop r = false by unfold hasIntPop; rw [hl]] at h
      exact absurd h (by simp)
    | int n =>
      have h1 : pyGetInt r popKey = Except.ok n := by unfold pyGetInt; rw [hl]
      have h2 : popN r = n := by unfold popN; rw [hl]
      rw [h1, h2]

theorem maxScan_cons (best : Record) (bk : Int) (r : Record)
    (rs : List Record) (k : Int) (hk : pyGetInt r popKey = Except.ok k) :
    maxScan best bk (r :: rs) =
      if bk < k then maxScan r k rs else maxScan best bk rs := by
  simp only [maxScan]
  rw [hk]

theorem minScan_cons (best : Record) (bk : Int) (r : Record)
    (rs : List Record) (k : Int) (hk : pyGetInt r popKey = Except.ok k) :
    minScan best bk (r :: rs) =
      if k < bk then minScan r k rs else minScan best bk rs := by
  simp only [minScan]
  rw [hk]

theorem maxScan_ok (rest : List Record) :
    ∀ (best : Record) (bk : Int) (m : Record),
      (∀ r ∈ rest, hasIntPop r = true) → bk = popN best →
      maxScan best bk rest = Except.ok m →
      (m = best ∧ ∀ r ∈ rest, popN r ≤ bk) ∨
      (∃ pre post, rest = pre ++ m :: post ∧ bk < popN m ∧
        (∀ r ∈ pre, popN r < popN m) ∧ (∀ r ∈ post, popN r ≤ popN m)) := by
  induction rest with
  | nil =>
    intro best bk m _ _ h
    exact Or.inl ⟨(Except.ok.inj h).symm, by simp⟩
  | cons r rs ih =>
    intro best bk m hall hbk h
    have hr : hasIntPop r = true := hall r (by simp)
    have hall' : ∀ x ∈ rs, hasIntPop x = true := fun x hx => hall x (by simp [hx])
    rw [maxScan_cons best bk r rs (popN r) (pyGetInt_pop hr)] at h
    by_cases hcmp : bk < popN r
    · rw [if_pos hcmp] at h
      rcases ih r (popN r) m hall' rfl h with ⟨hm, hle⟩ | ⟨pre, post, hsp, hlt, hpre, hpost⟩
      · subst hm
        exact Or.inr ⟨[], rs, rfl, hcmp, by simp, hle⟩
      · refine Or.inr ⟨r :: pre, post, by rw [hsp]; rfl, lt_trans hcmp hlt, ?_, hpost⟩
        intro x hx
        rcases List.mem_cons.mp hx with hxr | hxp
        · subst hxr; exact hlt
        · exact hpre x hxp
    · rw [if_neg hcmp] at h
      rcases ih best bk m hall' hbk h with ⟨hm, hle⟩ | ⟨pre, post, hsp, hlt, hpre, hpost⟩
      · refine Or.inl ⟨hm, ?_⟩
        intro x hx
        rcases List.mem_cons.mp hx with hxr | hxp
        · subst hxr; exact le_of_not_lt hcmp
        · exact hle x hxp
      · refine Or.inr ⟨r :: pre, post, by rw [hsp]; rfl, hlt, ?_, hpost⟩
        intro x hx
        rcases List.mem_cons.mp hx with hxr | hxp
        · subst hxr; exact lt_of_le_of_lt (le_of_not_lt hcmp) hlt
        · exact hpre x hxp

theorem minScan_ok (rest : List Record) :
    ∀ (best : Record) (bk : Int) (m : Record),
      (∀ r ∈ rest, hasIntPop r = true) → bk = popN best →
      minScan best bk rest = Except.ok m →
      (m = best ∧ ∀ r ∈ rest, bk ≤ popN r) ∨
      (∃ pre post, rest = pre ++ m :: post ∧ popN m < bk ∧
        (∀ r ∈ pre, popN m < popN r) ∧ (∀ r ∈ post, popN m ≤ popN r)) := by
  induction rest with
  | nil =>
    intro best bk m _ _ h
    exact Or.inl ⟨(Except.ok.inj h).symm, by simp⟩
  | cons r rs ih =>
    intro best bk m hall hbk h
    have hr : hasIntPop r = true := hall r (by simp)
    have hall' : ∀ x ∈ rs, hasIntPop x = true := fun x hx => hall x (by simp [hx])
    rw [minScan_cons best bk r rs (popN r) (pyGetInt_pop hr)] at h
    by_cases hcmp : popN r < bk
    · rw [if_pos hcmp] at h
      rcases ih r (popN r) m hall' rfl h with ⟨hm, hle⟩ | ⟨pre, post, hsp, hlt, hpre, hpost⟩
      · subst hm
        exact Or.inr ⟨[], rs, rfl, hcmp, by simp, hle⟩
      · refine Or.inr ⟨r :: pre, post, by rw [hsp]; rfl, lt_trans hlt hcmp, ?_, hpost⟩
        intro x hx
        rcases List.mem_cons.mp hx with hxr | hxp
        · subst hxr; exact hlt
        · exact hpre x hxp
    · rw [if_neg hcmp] at h
      rcases ih best bk m hall' hbk h with ⟨hm, hle⟩ | ⟨pre, post, hsp, hlt, hpre, hpost⟩
      · refine Or.inl ⟨hm, ?_⟩
        intro x hx
        rcases List.mem_cons.mp hx with hxr | hxp
        · subst hxr; exact le_of_not_lt hcmp
        · exact hle x hxp
      · refine Or.inr ⟨r :: pre, post, by rw [hsp]; rfl, hlt, ?_, hpost⟩
        intro x hx
        rcases List.mem_cons.mp hx with hxr | hxp
        · subst hxr; exact lt_of_lt_of_le hlt (le_of_not_lt hcmp)
        · exact hpre x hxp

theorem most_populated_cons (r : Record) (rs : List Record) (k : Int)
    (hk : pyGetInt r popKey = Except.ok k) :
    most_populated (r :: rs) = maxScan r k rs := by
  simp only [most_populated]
  rw [hk]

theorem least_populated_cons (r : Record) (rs : List Record) (k : Int)
    (hk : pyGetInt r popKey = Except.ok k) :
    least_populated (r :: rs) = minScan r k rs := by
  simp only [least_populated]
  rw [hk]

/-- C4: extremal selection is stable for both queries. Whenever
`most_populated` (respectively `least_populated`) returns a record on a
dataset of integer populations, that record attains the maximal
(respectively minimal) population, and every record strictly before it in
dataset order has strictly smaller (respectively strictly larger)
population — so among the records sharing the extremal value the earliest
one is selected. -/
theorem c4_extremal_stable (ds : List Record) (m1 m2 : Record)
    (hall : ∀ r ∈ ds, hasIntPop r = true)
    (h1 : most_populated ds = Except.ok m1)
    (h2 : least_populated ds = Except.ok m2) :
    (∃ pre post, ds = pre ++ m1 :: post ∧
      (∀ r ∈ pre, popN r < popN m1) ∧ (∀ r ∈ ds, popN r ≤ popN m1)) ∧
    (∃ pre post, ds = pre ++ m2 :: post ∧
      (∀ r ∈ pre, popN m2 < popN r) ∧ (∀ r ∈ ds, popN m2 ≤ popN r)) := by
  cases ds with
  | nil => exact absurd h1 (by simp [most_populated])
  | cons r rs =>
    have hr : hasIntPop r = true := hall r (by simp)
    have hall' : ∀ x ∈ rs, hasIntPop x = true := fun x hx => hall x (by simp [hx])
    rw [most_populated_cons r rs (popN r) (pyGetInt_pop hr)] at h1
    rw [least_populated_cons r rs (popN r) (pyGetInt_pop hr)] at h2
    constructor
    · rcases maxScan_ok rs r (popN r) m1 hall' rfl h1 with
        ⟨hm, hle⟩ | ⟨pre, post, hsp, hlt, hpre, hpost⟩
      · subst hm
        refine ⟨[], rs, rfl, by simp, ?_⟩
        intro x hx
        rcases List.mem_cons.mp hx with hxr | hxp
        · subst hxr; exact le_refl _
        · exact hle x hxp
      · refine ⟨r :: pre, post, by rw [hsp]; rfl, ?_, ?_⟩
        · intro x hx
          rcases List.mem_cons.mp hx with hxr | hxp
          · subst hxr; exact hlt
          · exact hpre x hxp
        · intro x hx
          rcases List.mem_cons.mp hx with hxr | hxp
          · subst hxr; exact le_of_lt hlt
          · rw [hsp] at hxp
            rcases List.mem_append.mp hxp with hxpre | hxrest
            · exact le_of_lt (hpre x hxpre)
            · rcases List.mem_cons.mp hxrest with hxm | hxpost
              · subst hxm; exact le_refl _
              · exact hpost x hxpost
    · rcases minScan_ok rs r (popN r) m2 hall' rfl h2 with
        ⟨hm, hle⟩ | ⟨pre, post, hsp, hlt, hpre, hpost⟩
      · subst hm
        refine ⟨[], rs, rfl, by simp, ?_⟩
        intro x hx
        rcases List.mem_cons.mp hx with hxr | hxp
        · subst hxr; exact le_refl _
        · exact hle x hxp
      · refine ⟨r :: pre, post, by rw [hsp]; rfl, ?_, ?_⟩
        · intro x hx
          rcases List.mem_cons.mp hx with hxr | hxp
          · subst hxr; exact hlt
          · exact hpre x hxp
        · intro x hx
          rcases List.mem_cons.mp hx with hxr | hxp
          · subst hxr; exact le_of_lt hlt
          · rw [hsp] at hxp
            rcases List.mem_append.mp hxp with hxpre | hxrest
            · exact le_of_lt (hpre x hxpre)
            · rcases List.mem_cons.mp hxrest with hxm | hxpost
              · subst hxm; exact le_refl _
              · exact hpost x hxpost

/-- Witness for C4 on a dataset with a population tie: with two records
both of population 5 and a third of population 3, both queries pick a
record such that all strictly earlier records are strictly smaller
(respectively larger); concretely `max` picks the first of the tied pair
and `min` picks the population-3 record. -/
theorem c4_extremal_stable_witness :
    (∃ pre post,
      ([[(locKey, Value.str "A"), (popKey, Value.int 5)],
        [(locKey, Value.str "B"), (popKey, Value.int 5)],
        [(locKey, Value.str "C"), (popKey, Value.int 3)]] : List Record) =
          pre ++ [(locKey, Value.str "A"), (popKey, Value.int 5)] :: post ∧
      (∀ r ∈ pre, popN r < popN [(locKey, Value.str "A"), (popKey, Value.int 5)]) ∧
      (∀ r ∈ ([[(locKey, Value.str "A"), (popKey, Value.int 5)],
        [(locKey, Value.str "B"), (popKey, Value.int 5)],
        [(locKey, Value.str "C"), (popKey, Value.int 3)]] : List Record),
          popN r ≤ popN [(locKey, Value.str "A"), (popKey, Value.int 5)])) ∧
    (∃ pre post,
      ([[(locKey, Value.str "A"), (popKey, Value.int 5)],
        [(locKey, Value.str "B"), (popKey, Value.int 5)],
        [(locKey, Value.str "C"), (popKey, Value.int 3)]] : List Record) =
          pre ++ [(locKey, Value.str "C"), (popKey, Value.int 3)] :: post ∧
      (∀ r ∈ pre, popN [(locKey, Value.str "C"), (popKey, Value.int 3)] < popN r) ∧
      (∀ r ∈ ([[(locKey, Value.str "A"), (popKey, Value.int 5)],
        [(locKey, Value.str "B"), (popKey, Value.int 5)],
        [(locKey, Value.str "C"), (popKey, Value.int 3)]] : List Record),
          popN [(locKey, Value.str "C"), (popKey, Value.int 3)] ≤ popN r)) :=
  c4_extremal_stable
    [[(locKey, Value.str "A"), (popKey, Value.int 5)],
     [(locKey, Value.str "B"), (popKey, Value.int 5)],
     [(locKey, Value.str "C"), (popKey, Value.int 3)]]
    [(locKey, Value.str "A"), (popKey, Value.int 5)]
    [(locKey, Value.str "C"), (popKey, Value.int 3)]
    (by decide) rfl rfl

/-! The end-to-end example rows of the spec, and concrete faulting data. -/

/-- First raw row of the spec's end-to-end example. -/
def specRow1 : Record :=
  [(locKey, Value.str "A"), (popKey, Value.str "100"),
   ("Industry_Pop_Lden>=75dB", Value.str "n/a"),
   ("Railways_Pop_Lden>=75dB", Value.str "5"),
   ("Road_Pop_Lden>=75dB", Value.str "5")]

/-- Second raw row of the spec's end-to-end example, the sentinel rollup
row. -/
def specRowDrop : Record :=
  [(locKey, SENTINEL), (popKey, Value.str "999")]

/-- Cleaned form of `specRow1`. -/
def specClean1 : Record :=
  [(locKey, Value.str "A"), (popKey, Value.int 100),
   ("Industry_Pop_Lden>=75dB", Value.int 0),
   ("Railways_Pop_Lden>=75dB", Value.int 5),
   ("Road_Pop_Lden>=75dB", Value.int 5)]

/-- A record with integer population zero, exercising the unguarded
division. -/
def zeroPopRec : Record :=
  [(locKey, Value.str "Z"), (popKey, Value.int 0),
   ("Industry_Pop_Lden>=75dB", Value.int 1),
   ("Railways_Pop_Lden>=75dB", Value.int 2),
   ("Road_Pop_Lden>=75dB", Value.int 3)]

/-! Bridging lemmas: the integer-arithmetic rounding used by the code
path computes round-half-even of the exact rational value. -/

theorem fdiv_eq_floor_div (num den : ℤ) (h : 0 < den) :
    num.fdiv den = ⌊((num : ℚ) / (den : ℚ))⌋ := by
  have h0 : (0 : ℤ) ≤ den := le_of_lt h
  have htn : ((den.toNat : ℤ)) = den := Int.toNat_of_nonneg h0
  calc num.fdiv den = num / den := Int.fdiv_eq_ediv num h0
    _ = num / (den.toNat : ℤ) := by rw [htn]
    _ = ⌊((num : ℚ) / ((den.toNat : ℕ) : ℚ))⌋ :=
        (Rat.floor_intCast_div_natCast num den.toNat).symm
    _ = ⌊((num : ℚ) / (den : ℚ))⌋ := by
        rw [show ((den.toNat : ℕ) : ℚ) = (den : ℚ) by exact_mod_cast htn]

theorem roundHalfEvenFrac_eq_rat (num den : ℤ) (h : 0 < den) :
    roundHalfEvenFrac num den = roundHalfEvenRat ((num : ℚ) / (den : ℚ)) := by
  have hden : (0 : ℚ) < (den : ℚ) := by exact_mod_cast h
  set q : ℚ := (num : ℚ) / (den : ℚ) with hq
  have hf : num.fdiv den = ⌊q⌋ := fdiv_eq_floor_div num den h
  have key : q - (⌊q⌋ : ℚ) = ((num - ⌊q⌋ * den : ℤ) : ℚ) / (den : ℚ) := by
    rw [eq_div_iff (ne_of_gt hden)]
    push_cast
    rw [hq]
    field_simp
    ring
  have hcast : ((num - ⌊q⌋ * den : ℤ) : ℚ) * 2 =
      ((2 * (num - ⌊q⌋ * den) : ℤ) : ℚ) := by push_cast; ring
  have hlt : q - (⌊q⌋ : ℚ) < 1 / 2 ↔ 2 * (num - ⌊q⌋ * den) < den := by
    rw [key, div_lt_div_iff₀ hden (by norm_num : (0:ℚ) < 2), one_mul, hcast]
    exact Int.cast_lt
  have hgt : (1 : ℚ) / 2 < q - (⌊q⌋ : ℚ) ↔ den < 2 * (num - ⌊q⌋ * den) := by
    rw [key, div_lt_div_iff₀ (by norm_num : (0:ℚ) < 2) hden, one_mul, hcast]
    exact Int.cast_lt
  unfold roundHalfEvenFrac roundHalfEvenRat
  rw [hf]
  by_cases h1 : 2 * (num - ⌊q⌋ * den) < den
  · rw [if_pos h1, if_pos (hlt.mpr h1)]
  · rw [if_neg h1, if_neg (fun hc => h1 (hlt.mp hc))]
    by_cases h2 : den < 2 * (num - ⌊q⌋ * den)
    · rw [if_pos h2, if_pos (hgt.mpr h2)]
    · rw [if_neg h2, if_neg (fun hc => h2 (hgt.mp hc))]

theorem formatPercentFrac_eq_rat (num den : ℤ) (h : 0 < den) :
    formatPercentFrac num den = formatPercentRat ((num : ℚ) / (den : ℚ)) := by
  unfold formatPercentFrac formatPercentRat
  rw [roundHalfEvenFrac_eq_rat (num * 100) den h]
  rw [show ((num * 100 : ℤ) : ℚ) / (den : ℚ) = (num : ℚ) / (den : ℚ) * 100 by
    push_cast; ring]

/-- C5: the exposure count is the sum of the three Lden>=75dB fields, the
percentage is (count / population) * 100 formatted to two decimals with a
trailing percent sign, and on the spec's end-to-end example the surviving
record has count 0+5+5 = 10 over population 100, rendered "10.00%". -/
theorem c5_exposure_metrics :
    (∀ (r : Record) (a b c : Int),
      pyGetInt r "Industry_Pop_Lden>=75dB" = Except.ok a →
      pyGetInt r "Railways_Pop_Lden>=75dB" = Except.ok b →
      pyGetInt r "Road_Pop_Lden>=75dB" = Except.ok c →
      highExposureCount r = Except.ok (a + b + c)) ∧
    (∀ (r : Record) (cnt p : Int),
      highExposureCount r = Except.ok cnt →
      pyGetInt r popKey = Except.ok p → 0 < p →
      highExposurePercent r =
        Except.ok (formatPercentRat (((cnt : ℚ) / (p : ℚ)) * 100))) ∧
    (buildDataset [specRow1, specRowDrop] = Except.ok [specClean1] ∧
     most_populated [specClean1] = Except.ok specClean1 ∧
     least_populated [specClean1] = Except.ok specClean1 ∧
     highExposureCount specClean1 = Except.ok 10 ∧
     highExposurePercent specClean1 = Except.ok "10.00%") := by
  refine ⟨?_, ?_, rfl, rfl, rfl, rfl, by decide⟩
  · intro r a b c ha hb hc
    unfold highExposureCount
    rw [ha, hb, hc]
    show Except.ok (0 + a + b + c) = Except.ok (a + b + c)
    rw [zero_add]
  · intro r cnt p hcnt hp hppos
    unfold highExposurePercent
    rw [hcnt, hp]
    show (if p = 0 then Except.error "ZeroDivisionError"
      else Except.ok (formatPercentFrac (cnt * 100) p)) = _
    rw [if_neg (ne_of_gt hppos), formatPercentFrac_eq_rat (cnt * 100) p hppos]
    rw [show ((cnt * 100 : ℤ) : ℚ) / (p : ℚ) = (cnt : ℚ) / (p : ℚ) * 100 by
      push_cast; ring]

/-- Witness for C5's universally quantified parts at the cleaned example
record. -/
theorem c5_exposure_metrics_witness :
    highExposureCount specClean1 = Except.ok (0 + 5 + 5) ∧
      highExposurePercent specClean1 =
        Except.ok (formatPercentRat (((10 : ℚ) / (100 : ℚ)) * 100)) :=
  ⟨c5_exposure_metrics.1 specClean1 0 5 5 rfl rfl rfl,
   c5_exposure_metrics.2.1 specClean1 10 100 rfl rfl (by decide)⟩

/-- C8: the percentage computation divides by the record's population
with no guard. Under the precondition that the population is a positive
integer (and the three exposure fields are integers) the error branch is
unreachable, and on a dataset whose extremal record has population 0 the
computation raises `ZeroDivisionError`. -/
theorem c8_division_by_zero :
    (∀ (r : Record) (p cnt : Int),
      pyGetInt r popKey = Except.ok p → 0 < p →
      highExposureCount r = Except.ok cnt →
      ∃ s, highExposurePercent r = Except.ok s) ∧
    (most_populated [zeroPopRec] = Except.ok zeroPopRec ∧
     least_populated [zeroPopRec] = Except.ok zeroPopRec ∧
     pyGetInt zeroPopRec popKey = Except.ok 0 ∧
     highExposurePercent zeroPopRec = Except.error "ZeroDivisionError") := by
  refine ⟨?_, rfl, rfl, rfl, rfl⟩
  intro r p cnt hp hppos hcnt
  refine ⟨formatPercentFrac (cnt * 100) p, ?_⟩
  unfold highExposurePercent
  rw [hcnt, hp]
  show (if p = 0 then Except.error "ZeroDivisionError"
    else Except.ok (formatPercentFrac (cnt * 100) p)) = _
  rw [if_neg (ne_of_gt hppos)]

/-- Witness for C8's universally quantified part at the cleaned example
record with population 100. -/
theorem c8_division_by_zero_witness :
    ∃ s, highExposurePercent specClean1 = Except.ok s :=
  c8_division_by_zero.1 specClean1 100 10 rfl (by decide) rfl

end Analyse
